import Mathlib

/-!
Verification development for the track-resolution and matching engine of the
spotify_recommendation project.

The Python source (`main.py`, `backend/app/services/spotify_async.py`,
`backend/app/agents/verifier_agent_async.py`,
`backend/app/api/recommendations_async.py`) is shallowly embedded below:

* Python floats are modelled by `Rat`; the scores involved are finite sums of
  small decimal fractions, so rational arithmetic is the intended idealisation
  of the score algebra (IEEE rounding is out of scope).
* Python's `\s` whitespace class is modelled by `Char.isWhitespace`.
* The Spotify web client is modelled as an oracle: a list of
  `Option (List Track)` outcomes, one per `client.search` call in issuing
  order, where `none` models a raised exception and `some ts` a result page.
* The Gemini model call plus JSON decoding inside the verifier agents is
  modelled by an explicit outcome datatype (`ModelOutcome`, `BatchOutcome`):
  the embedded functions describe exactly what the Python `try/except` bodies
  do with each possible outcome of that external call.
-/

namespace SpotifyRec

/-- A catalog track, keeping exactly the fields `_score_track_match` reads
from the Spotify track object: `name`, `artists[*].name` and `popularity`. -/
structure Track where
  name : String
  artists : List String
  popularity : Nat
deriving DecidableEq

/-- The character class stripped by `_normalize_text`'s regex
`[\(\)\[\]\{\}\.,!'\"]`. -/
def punctuationChars : List Char :=
  ['(', ')', '[', ']', '{', '}', '.', ',', '!', '\'', '\"']

/-- Python `str.lower()` (ASCII-compatible, via `Char.toLower`). -/
def pyLower (s : String) : String :=
  String.mk (s.data.map Char.toLower)

/-- The substitution `re.sub(r"[\(\)\[\]\{\}\.,!'\"]", " ", value)` in
`_normalize_text`. -/
def stripPunct (s : String) : String :=
  String.mk (s.data.map (fun c => if punctuationChars.contains c then ' ' else c))

/-- Helper for `pySplit`: accumulates the current word (reversed) while
scanning the character list. -/
def pySplitAux : List Char → List Char → List String
  | [], cur => if cur.isEmpty then [] else [String.mk cur.reverse]
  | c :: cs, cur =>
    if c.isWhitespace then
      (if cur.isEmpty then pySplitAux cs [] else String.mk cur.reverse :: pySplitAux cs [])
    else pySplitAux cs (c :: cur)

/-- Python `str.split()` with no argument: split on runs of whitespace,
dropping empty fragments. -/
def pySplit (s : String) : List String :=
  pySplitAux s.data []

/-- Embeds `_normalize_text` (main.py): lowercase, replace the fixed
punctuation set by spaces, collapse whitespace runs to single spaces and trim.
Collapse-and-trim is rendered as splitting into words and re-joining with
single spaces, which is the same string. -/
def normalize_text (s : String) : String :=
  " ".intercalate (pySplit (stripPunct (pyLower s)))

/-- Embeds `_token_set_ratio` (main.py): Jaccard overlap of the two
normalized token sets, `0` if either set is empty. -/
def token_set_sim (a b : String) : Rat :=
  let A : Finset String := (pySplit (normalize_text a)).toFinset
  let B : Finset String := (pySplit (normalize_text b)).toFinset
  if A = ∅ ∨ B = ∅ then 0
  else ((A ∩ B).card : Rat) / ((A ∪ B).card : Rat)

/-- Embeds `_score_track_match` (main.py): weighted combination of title
similarity, artist similarity (fixed prior 0.2 when no artists are given),
and popularity, with a 0.05 prefix bonus, clamped to at most 1. -/
def score_track_match (title : String) (artists : Option (List String)) (track : Track) : Rat :=
  let track_title := track.name
  let track_artists := track.artists
  let title_score := token_set_sim title track_title
  let artist_score : Rat :=
    match artists with
    | some (a0 :: rest) =>
      let joined := " ".intercalate track_artists
      max (token_set_sim (" ".intercalate (a0 :: rest)) joined)
          ((rest.map (fun a => token_set_sim a joined)).foldl max (token_set_sim a0 joined))
    | _ => 1/5
  let popularity : Rat := (track.popularity : Rat) / 100
  let score := 65/100 * title_score + 3/10 * artist_score + 5/100 * popularity
  let score :=
    if ((normalize_text title).data.take 10).isPrefixOf (normalize_text track_title).data
    then score + 5/100 else score
  min score 1

/-! ### Free-form parser (`parse_title_and_artists_from_freeform`)

The Python function splits on the regex
`\s+by\s+|\s+-\s+|\s+–\s+|\s+—\s+|\s*\|\s*` (IGNORECASE) and, when at least
one separator matched, further splits `parts[1]` (the fragment between the
first and the second separator occurrence) on
`,|&|feat\.?|ft\.?|with` (IGNORECASE).  The regex engine is specialised
below: because no alternative's trailing `\s*`/`\s+` can overlap the
required literal character, greedy matching of maximal whitespace runs is
exact, so the matchers below compute precisely the Python matches. -/

/-- Length of the leading whitespace run (the greedy `\s+`/`\s*` match). -/
def wsCount : List Char → Nat
  | [] => 0
  | c :: cs => if c.isWhitespace then wsCount cs + 1 else 0

/-- Match `\s+<dash>\s+` at the head of `cs`; returns the match length. -/
def matchDashSep (dash : Char) (cs : List Char) : Option Nat :=
  let w := wsCount cs
  if w = 0 then none
  else
    match cs.drop w with
    | c :: rest =>
      if c = dash then
        let w2 := wsCount rest
        if w2 = 0 then none else some (w + 1 + w2)
      else none
    | [] => none

/-- Match `\s+by\s+` (IGNORECASE) at the head of `cs`. -/
def matchBySep (cs : List Char) : Option Nat :=
  let w := wsCount cs
  if w = 0 then none
  else
    match cs.drop w with
    | b :: y :: rest =>
      if b.toLower = 'b' ∧ y.toLower = 'y' then
        let w2 := wsCount rest
        if w2 = 0 then none else some (w + 2 + w2)
      else none
    | _ => none

/-- Match `\s*\|\s*` at the head of `cs`. -/
def matchPipeSep (cs : List Char) : Option Nat :=
  let w := wsCount cs
  match cs.drop w with
  | c :: rest => if c = '|' then some (w + 1 + wsCount rest) else none
  | [] => none

/-- Try the five title-separator alternatives at this position, in the
regex's order: `\s+by\s+`, `\s+-\s+`, `\s+–\s+` (en dash), `\s+—\s+`
(em dash), `\s*\|\s*`. -/
def matchTitleSepAt (cs : List Char) : Option Nat :=
  (matchBySep cs).orElse fun _ =>
    (matchDashSep '-' cs).orElse fun _ =>
      (matchDashSep '–' cs).orElse fun _ =>
        (matchDashSep '—' cs).orElse fun _ => matchPipeSep cs

/-- Leftmost title-separator match: `(start index, match length)`. -/
def findSepFrom : List Char → Nat → Option (Nat × Nat)
  | [], _ => none
  | c :: cs, i =>
    match matchTitleSepAt (c :: cs) with
    | some len => some (i, len)
    | none => findSepFrom cs (i + 1)

/-- Leftmost match of the title-separator regex, as in `re.split`. -/
def findSep (cs : List Char) : Option (Nat × Nat) :=
  findSepFrom cs 0

/-- Case-insensitive literal match; returns the remaining characters. -/
def matchLit : List Char → List Char → Option (List Char)
  | [], rest => some rest
  | _ :: _, [] => none
  | l :: ls, c :: cs => if c.toLower = l then matchLit ls cs else none

/-- Does an optional `.` (the greedy `\.?`) follow here?  Returns the extra
length consumed. -/
def optDot : List Char → Nat
  | '.' :: _ => 1
  | _ => 0

/-- Match one artist-delimiter alternative of `,|&|feat\.?|ft\.?|with`
(IGNORECASE) at this position, in the regex's order; returns the length.
Every returned length is at least 1. -/
def artistSepAt (cs : List Char) : Option Nat :=
  match cs with
  | [] => none
  | c :: _ =>
    if c = ',' then some 1
    else if c = '&' then some 1
    else
      match matchLit ['f', 'e', 'a', 't'] cs with
      | some rest => some (4 + optDot rest)
      | none =>
        match matchLit ['f', 't'] cs with
        | some rest => some (2 + optDot rest)
        | none =>
          match matchLit ['w', 'i', 't', 'h'] cs with
          | some _ => some 4
          | none => none

/-- `re.split` on the artist-delimiter regex: all fragments, in order.
`cur` holds the pending fragment's characters in reverse.  Each step
consumes at least one character (`artistSepAt` only returns lengths
`len ≥ 1`), so structural recursion on a fuel initialised to the input
length computes the full split; the fuel is a termination device only. -/
def splitArtistsAux : Nat → List Char → List Char → List String
  | _, [], cur => [String.mk cur.reverse]
  | 0, _ :: _, cur => [String.mk cur.reverse]
  | fuel + 1, c :: cs, cur =>
    match artistSepAt (c :: cs) with
    | some len => String.mk cur.reverse :: splitArtistsAux fuel (cs.drop (len - 1)) []
    | none => splitArtistsAux fuel cs (c :: cur)

/-- All fragments of `re.split(r",|&|feat\.?|ft\.?|with", s, IGNORECASE)`. -/
def splitArtists (s : String) : List String :=
  splitArtistsAux s.data.length s.data []

/-- Python `str.strip()`: drop leading and trailing whitespace. -/
def pyStrip (s : String) : String :=
  String.mk (((s.data.dropWhile Char.isWhitespace).reverse.dropWhile Char.isWhitespace).reverse)

/-- Embeds `parse_title_and_artists_from_freeform` (main.py).  `parts[0]`
is the text before the first separator match; `parts[1]` — used as the
artist portion — is the text between the first match and the following
separator match (or the end of the string when there is no further match). -/
def parse_title_and_artists_from_freeform (text : String) : String × Option (List String) :=
  let cs := text.data
  match findSep cs with
  | none => (pyStrip text, none)
  | some (i, len) =>
    let title := pyStrip (String.mk (cs.take i))
    let after := cs.drop (i + len)
    let part1 :=
      match findSep after with
      | none => after
      | some (j, _) => after.take j
    let frags := ((splitArtists (String.mk part1)).map pyStrip).filter (fun a => a ≠ "")
    (title, if frags = [] then none else some frags)

/-- The parser as claim C4 words it: identical splitting, except that the
artist portion is the ENTIRE remainder after the first separator match. -/
def parse_spec_C4 (text : String) : String × Option (List String) :=
  let cs := text.data
  match findSep cs with
  | none => (pyStrip text, none)
  | some (i, len) =>
    let title := pyStrip (String.mk (cs.take i))
    let part1 := cs.drop (i + len)
    let frags := ((splitArtists (String.mk part1)).map pyStrip).filter (fun a => a ≠ "")
    (title, if frags = [] then none else some frags)

/-! ### Track resolver (`SpotifyClient.resolve_track`, main.py)

The Spotify client is an oracle: one `Option (List Track)` per
`client.search` call, in issuing order; `none` models the call raising an
exception (which the source logs and absorbs), `some ts` models the items
of a result page.  The loops below mirror the source's nested
query/attempt loops; the `(best, best_score)` accumulator and the early
exit are exactly the source's. -/

/-- One `client.search` outcome. -/
abbrev SearchResponse := Option (List Track)

/-- The inner `for t in tracks` loop of `resolve_track`: update
`(best, best_score)` with every track scoring strictly above the running
best. -/
def scanTracks (title : String) (artists : Option (List String)) (ts : List Track)
    (b : Option Track × Rat) : Option Track × Rat :=
  ts.foldl
    (fun acc t =>
      let score := score_track_match title artists t
      if score > acc.2 then (some t, score) else acc)
    b

/-- The `for attempt in range(retries)` loop for one query: each attempt
consumes the next oracle outcome (an exhausted oracle behaves like a
failing call); a raised search is absorbed; after a successful search the
source checks `best_score >= 0.75` and returns early.  Returns the
accumulator, the unconsumed oracle suffix, and the early-exit flag. -/
def runAttempts (title : String) (artists : Option (List String)) :
    Nat → Option Track × Rat → List SearchResponse →
    (Option Track × Rat) × List SearchResponse × Bool
  | 0, b, rs => (b, rs, false)
  | n + 1, b, rs =>
    match rs with
    | [] => runAttempts title artists n b []
    | none :: rest => runAttempts title artists n b rest
    | some ts :: rest =>
      let b2 := scanTracks title artists ts b
      if b2.2 ≥ 3/4 then (b2, rest, true)
      else runAttempts title artists n b2 rest

/-- The outer `for query in queries` loop of `resolve_track`. -/
def runQueries (title : String) (artists : Option (List String)) (retries : Nat) :
    List String → Option Track × Rat → List SearchResponse →
    (Option Track × Rat) × List SearchResponse × Bool
  | [], b, rs => (b, rs, false)
  | _q :: qs, b, rs =>
    match runAttempts title artists retries b rs with
    | (b2, rs2, true) => (b2, rs2, true)
    | (b2, rs2, false) => runQueries title artists retries qs b2 rs2

/-- The effective `(title_only, artist_list)` pair of `resolve_track`:
the parsed title, and `artists or parsed_artists` (Python truthiness:
`none` and `some []` both fall back to the parsed artists). -/
def effectiveTitleArtists (title : String) (artists : Option (List String)) :
    String × Option (List String) :=
  let parsed := parse_title_and_artists_from_freeform title
  (parsed.1,
   match artists with
   | some (a :: rest) => some (a :: rest)
   | _ => parsed.2)

/-- The query list built by `resolve_track`: one
`track:"title" artist:"a"` query per effective artist, then
`track:"title"`, then the raw title. -/
def buildQueries (title_only : String) (artist_list : Option (List String)) : List String :=
  (match artist_list with
   | some l => l.map (fun a => "track:\"" ++ title_only ++ "\" artist:\"" ++ a ++ "\"")
   | none => []) ++
  ["track:\"" ++ title_only ++ "\"", title_only]

/-- The full loop phase of `SpotifyClient.resolve_track`, instrumented to
also return the unconsumed oracle suffix and the early-exit flag. -/
def resolve_track_run (title : String) (artists : Option (List String)) (retries : Nat)
    (responses : List SearchResponse) : (Option Track × Rat) × List SearchResponse × Bool :=
  let ta := effectiveTitleArtists title artists
  runQueries ta.1 ta.2 retries (buildQueries ta.1 ta.2) (none, 0) responses

/-- Embeds `SpotifyClient.resolve_track` (main.py): early exit returns the
running best; otherwise the best candidate is returned iff
`best_score >= 0.45`. -/
def resolve_track (title : String) (artists : Option (List String)) (retries : Nat)
    (responses : List SearchResponse) : Option Track :=
  match resolve_track_run title artists retries responses with
  | (b, _, true) => b.1
  | (b, _, false) =>
    match b.1 with
    | some t => if b.2 ≥ 9/20 then some t else none
    | none => none

/-! ### Async resolver (`SpotifyClientAsync.resolve_track._resolve_sync`,
backend/app/services/spotify_async.py)

Transliterated separately from the async source file (which imports
`parse_title_and_artists_from_freeform` and `_score_track_match` from
main.py), to compare against the sync resolver. -/

/-- The `for t in tracks` loop of the async `_resolve_sync`. -/
def asyncScanTracks (title : String) (artists : Option (List String)) (ts : List Track)
    (b : Option Track × Rat) : Option Track × Rat :=
  ts.foldl
    (fun acc t =>
      let score := score_track_match title artists t
      if score > acc.2 then (some t, score) else acc)
    b

/-- The attempt loop of the async `_resolve_sync`. -/
def asyncRunAttempts (title : String) (artists : Option (List String)) :
    Nat → Option Track × Rat → List SearchResponse →
    (Option Track × Rat) × List SearchResponse × Bool
  | 0, b, rs => (b, rs, false)
  | n + 1, b, rs =>
    match rs with
    | [] => asyncRunAttempts title artists n b []
    | none :: rest => asyncRunAttempts title artists n b rest
    | some ts :: rest =>
      let b2 := asyncScanTracks title artists ts b
      if b2.2 ≥ 3/4 then (b2, rest, true)
      else asyncRunAttempts title artists n b2 rest

/-- The query loop of the async `_resolve_sync`. -/
def asyncRunQueries (title : String) (artists : Option (List String)) (retries : Nat) :
    List String → Option Track × Rat → List SearchResponse →
    (Option Track × Rat) × List SearchResponse × Bool
  | [], b, rs => (b, rs, false)
  | _q :: qs, b, rs =>
    match asyncRunAttempts title artists retries b rs with
    | (b2, rs2, true) => (b2, rs2, true)
    | (b2, rs2, false) => asyncRunQueries title artists retries qs b2 rs2

/-- Embeds `SpotifyClientAsync.resolve_track` (spotify_async.py): the body
of `_resolve_sync`, which is run unchanged in a worker thread. -/
def async_resolve_track (title : String) (artists : Option (List String)) (retries : Nat)
    (responses : List SearchResponse) : Option Track :=
  let parsed := parse_title_and_artists_from_freeform title
  let title_only := parsed.1
  let artist_list : Option (List String) :=
    match artists with
    | some (a :: rest) => some (a :: rest)
    | _ => parsed.2
  let queries :=
    (match artist_list with
     | some l => l.map (fun a => "track:\"" ++ title_only ++ "\" artist:\"" ++ a ++ "\"")
     | none => []) ++
    ["track:\"" ++ title_only ++ "\"", title_only]
  match asyncRunQueries title_only artist_list retries queries (none, 0) responses with
  | (b, _, true) => b.1
  | (b, _, false) =>
    match b.1 with
    | some t => if b.2 ≥ 9/20 then some t else none
    | none => none

/-! ### Claim-side view of the resolver

These definitions render the words of claims C1 and C3; they are compared
with the embedded source above. -/

/-- All candidates produced by a list of search outcomes, paired with
their match scores, in encounter order (a failed search contributes no
candidates). -/
def seenScores (title : String) (artists : Option (List String)) :
    List SearchResponse → List (Track × Rat)
  | [] => []
  | r :: rest =>
    (r.getD []).map (fun t => (t, score_track_match title artists t)) ++
      seenScores title artists rest

/-- One best-candidate update, as the claim describes it. -/
def bumpBest (b : Option Track × Rat) (p : Track × Rat) : Option Track × Rat :=
  if p.2 > b.2 then (some p.1, p.2) else b

/-- Folding the best-candidate update over a stream of scored candidates. -/
def bestFrom (b : Option Track × Rat) (ps : List (Track × Rat)) : Option Track × Rat :=
  ps.foldl bumpBest b

/-- The claim's running best over a whole outcome list, starting from
`(no candidate, score 0)`. -/
def bestOf (title : String) (artists : Option (List String))
    (rs : List SearchResponse) : Option Track × Rat :=
  bestFrom (none, 0) (seenScores title artists rs)

/-- Number of outcomes consumed before the early exit fires, starting from
accumulator `b`: `some k` means the running best first reaches `3/4` right
after the `k`-th outcome. -/
def firstExitAux (title : String) (artists : Option (List String))
    (b : Option Track × Rat) : List SearchResponse → Option Nat
  | [] => none
  | r :: rest =>
    let b2 := bestFrom b ((r.getD []).map (fun t => (t, score_track_match title artists t)))
    if b2.2 ≥ 3/4 then some 1
    else (firstExitAux title artists b2 rest).map Nat.succ

/-- The claim's early-exit point over a whole outcome list. -/
def firstExit (title : String) (artists : Option (List String))
    (rs : List SearchResponse) : Option Nat :=
  firstExitAux title artists (none, 0) rs

/-- The single flat loop the claims describe: consume outcomes one at a
time, update the running best, and stop right after the outcome that
lifts the best score to `3/4`. -/
def claimRunL (title : String) (artists : Option (List String)) :
    Option Track × Rat → List SearchResponse →
    (Option Track × Rat) × List SearchResponse × Bool
  | b, [] => (b, [], false)
  | b, r :: rest =>
    let b2 := bestFrom b ((r.getD []).map (fun t => (t, score_track_match title artists t)))
    if b2.2 ≥ 3/4 then (b2, rest, true)
    else claimRunL title artists b2 rest

/-- Claim C3's reading of the attempt loop: a successful attempt (even one
below the early-exit threshold) advances to the next query instead of
re-attempting the same query. -/
def runAttemptsC3 (title : String) (artists : Option (List String)) :
    Nat → Option Track × Rat → List SearchResponse →
    (Option Track × Rat) × List SearchResponse × Bool
  | 0, b, rs => (b, rs, false)
  | n + 1, b, rs =>
    match rs with
    | [] => runAttemptsC3 title artists n b []
    | none :: rest => runAttemptsC3 title artists n b rest
    | some ts :: rest =>
      let b2 := scanTracks title artists ts b
      (b2, rest, b2.2 ≥ 3/4)

/-- Query loop over claim C3's attempt loop. -/
def runQueriesC3 (title : String) (artists : Option (List String)) (retries : Nat) :
    List String → Option Track × Rat → List SearchResponse →
    (Option Track × Rat) × List SearchResponse × Bool
  | [], b, rs => (b, rs, false)
  | _q :: qs, b, rs =>
    match runAttemptsC3 title artists retries b rs with
    | (b2, rs2, true) => (b2, rs2, true)
    | (b2, rs2, false) => runQueriesC3 title artists retries qs b2 rs2

/-- The resolver as claim C3 words it (advance to the next query as soon
as one attempt succeeds). -/
def resolve_track_claimC3 (title : String) (artists : Option (List String)) (retries : Nat)
    (responses : List SearchResponse) : Option Track :=
  let ta := effectiveTitleArtists title artists
  match runQueriesC3 ta.1 ta.2 retries (buildQueries ta.1 ta.2) (none, 0) responses with
  | (b, _, true) => b.1
  | (b, _, false) =>
    match b.1 with
    | some t => if b.2 ≥ 9/20 then some t else none
    | none => none

/-! ### Verifier agents

`VerifierAgent.verify_recommendation` (main.py) and
`VerifierAgentAsync.verify_batch` /
`VerifierAgentAsync._extract_batch_verification`
(backend/app/agents/verifier_agent_async.py).

The Gemini call plus JSON decoding is abstracted into an outcome value:
the embedded functions state exactly what each `try/except` body returns
for each possible outcome of that external interaction. -/

/-- The `VerificationResult` pydantic model. -/
structure VerificationResult where
  is_valid : Bool
  confidence_score : Rat
  reason : String
deriving DecidableEq

/-- Outcome of one single-pair model interaction:
`failure e` — `generate_content` (or the JSON extraction) raised `e`;
`empty` — the response object or its text was falsy;
`parsed r` — extraction produced the validated result `r`. -/
inductive ModelOutcome where
  | failure : String → ModelOutcome
  | empty : ModelOutcome
  | parsed : VerificationResult → ModelOutcome

/-- Embeds `VerifierAgent.verify_recommendation` (main.py; the async
single-pair variant in verifier_agent_async.py has the identical
`try/except` structure): it always returns a result, and on a raised
error or empty response that result is `is_valid := false` with
confidence `0`. -/
def verify_recommendation (outcome : ModelOutcome) : VerificationResult :=
  match outcome with
  | .empty => ⟨false, 0, "Verification failed"⟩
  | .failure e => ⟨false, 0, "Verification error: " ++ e⟩
  | .parsed r => r

/-- One entry of the decoded `verifications` JSON array: each field is
optional, mirroring `v.get(..., default)` in the source. -/
structure RawVerification where
  is_valid : Option Bool
  confidence_score : Option Rat
  reason : Option String

/-- Outcome of one batched model interaction:
`failure e` — the model call raised `e`;
`empty` — the response or its text was falsy;
`parseError` — no JSON object could be extracted from the text;
`parsed vs` — the decoded `verifications` array. -/
inductive BatchOutcome where
  | failure : String → BatchOutcome
  | empty : BatchOutcome
  | parseError : BatchOutcome
  | parsed : List RawVerification → BatchOutcome

/-- Embeds `VerifierAgentAsync._extract_batch_verification`'s result
assembly: for each index `i < expected_count`, take `verifications[i]`
with per-field defaults when present, and the
`{is_valid: true, 0.5, "Missing result"}` default when absent. -/
def extract_batch_verification (verifications : List RawVerification)
    (expected : Nat) : List VerificationResult :=
  (List.range expected).map fun i =>
    match verifications[i]? with
    | some v => ⟨v.is_valid.getD true, v.confidence_score.getD (1/2), v.reason.getD "Verified"⟩
    | none => ⟨true, 1/2, "Missing result"⟩

/-- Embeds `VerifierAgentAsync.verify_batch` for `n` input pairs: every
failure mode degrades to one permissive default result per pair. -/
def verify_batch (outcome : BatchOutcome) (n : Nat) : List VerificationResult :=
  match outcome with
  | .failure e => List.replicate n ⟨true, 1/2, "Verification error: " ++ e⟩
  | .empty => List.replicate n ⟨true, 1/2, "Verification skipped"⟩
  | .parseError => List.replicate n ⟨true, 1/2, "Parse error"⟩
  | .parsed vs => extract_batch_verification vs n

/-- Embeds the final-list assembly of `get_recommendations_async`
(recommendations_async.py, and the same policy in main.py's loop): the
`idx`-th resolved pair is paired with the `idx`-th verification when one
exists; a pair whose verification has `is_valid = false` is dropped, all
other pairs (including those beyond the verification list) are kept. -/
def buildFinalList {α : Type} : List α → List VerificationResult → List α
  | [], _ => []
  | p :: ps, [] => p :: buildFinalList ps []
  | p :: ps, v :: vs =>
    if v.is_valid then p :: buildFinalList ps vs else buildFinalList ps vs

/-- The parser as the amended claim C4 words it: the artist portion is the
fragment between the first separator match and the next separator match
(or the end of the string), i.e. `parts[1]` of the full `re.split`. -/
def parse_spec_C4_amended (text : String) : String × Option (List String) :=
  let cs := text.data
  match findSep cs with
  | none => (pyStrip text, none)
  | some (i, len) =>
    let title := pyStrip (String.mk (cs.take i))
    let after := cs.drop (i + len)
    let part1 :=
      match findSep after with
      | none => after
      | some (j, _) => after.take j
    let frags := ((splitArtists (String.mk part1)).map pyStrip).filter (fun a => a ≠ "")
    (title, if frags = [] then none else some frags)

/-! ## Lemmas -/

/-- Evaluation rule for `token_set_sim` when both token sets are
non-empty, in terms of the two set cardinalities. -/
lemma token_set_sim_pos_eval (a b : String) (i u : Nat)
    (h1 : ((pySplit (normalize_text a)).toFinset ∩ (pySplit (normalize_text b)).toFinset).card = i)
    (h2 : ((pySplit (normalize_text a)).toFinset ∪ (pySplit (normalize_text b)).toFinset).card = u)
    (h3 : ¬((pySplit (normalize_text a)).toFinset = ∅ ∨ (pySplit (normalize_text b)).toFinset = ∅)) :
    token_set_sim a b = (i : Rat) / u := by
  unfold token_set_sim
  rw [if_neg h3, h1, h2]

/-- `score_track_match` written as the weighted-sum-plus-bonus formula of
spec §4.3. -/
lemma score_formula (title : String) (artists : Option (List String)) (track : Track) :
    score_track_match title artists track =
      min (65/100 * token_set_sim title track.name
           + 3/10 * (match artists with
                     | some (a0 :: rest) =>
                        max (token_set_sim (" ".intercalate (a0 :: rest)) (" ".intercalate track.artists))
                            ((rest.map (fun a => token_set_sim a (" ".intercalate track.artists))).foldl max
                              (token_set_sim a0 (" ".intercalate track.artists)))
                     | _ => 1/5)
           + 5/100 * ((track.popularity : Rat) / 100)
           + (if ((normalize_text title).data.take 10).isPrefixOf (normalize_text track.name).data
              then 5/100 else 0)) 1 := by
  unfold score_track_match
  by_cases hb : ((normalize_text title).data.take 10).isPrefixOf (normalize_text track.name).data = true
  · simp only [if_pos hb]
  · simp only [if_neg hb, add_zero]

/-- Token-set similarity is non-negative. -/
lemma token_set_sim_nonneg (a b : String) : 0 ≤ token_set_sim a b := by
  unfold token_set_sim
  dsimp only
  split
  · exact le_refl 0
  · exact div_nonneg (Nat.cast_nonneg _) (Nat.cast_nonneg _)

/-- The start value is bounded by a fold of `max`. -/
lemma le_foldl_max (l : List Rat) : ∀ x : Rat, x ≤ l.foldl max x := by
  induction l with
  | nil => intro x; exact le_refl x
  | cons h t ih =>
    intro x
    calc x ≤ max x h := le_max_left x h
    _ ≤ t.foldl max (max x h) := ih (max x h)
    _ = (h :: t).foldl max x := rfl

/-- The fold of `max` is bounded by a bound on the start and all items. -/
lemma foldl_max_le (c : Rat) : ∀ (l : List Rat) (x : Rat), x ≤ c → (∀ y ∈ l, y ≤ c) →
    l.foldl max x ≤ c := by
  intro l
  induction l with
  | nil => intro x hx _; exact hx
  | cons h t ih =>
    intro x hx hl
    exact ih (max x h) (max_le hx (hl h (List.mem_cons_self h t)))
      (fun y hy => hl y (List.mem_cons_of_mem h hy))

/-- The artist-score component of `score_track_match` is non-negative. -/
lemma artist_component_nonneg (artists : Option (List String)) (joined : String) :
    0 ≤ (match artists with
         | some (a0 :: rest) =>
            max (token_set_sim (" ".intercalate (a0 :: rest)) joined)
                ((rest.map (fun a => token_set_sim a joined)).foldl max (token_set_sim a0 joined))
         | _ => (1/5 : Rat)) := by
  match artists with
  | none => norm_num
  | some [] => norm_num
  | some (a0 :: rest) =>
    refine le_trans (token_set_sim_nonneg (" ".intercalate (a0 :: rest)) joined) ?_
    exact le_max_left _ _

/-- Claim C7's lower bound: the score is non-negative. -/
lemma score_track_match_nonneg (title : String) (artists : Option (List String))
    (track : Track) : 0 ≤ score_track_match title artists track := by
  rw [score_formula]
  have h1 : 0 ≤ 65/100 * token_set_sim title track.name :=
    mul_nonneg (by norm_num) (token_set_sim_nonneg _ _)
  have h2 : 0 ≤ (3/10 : Rat) * (match artists with
           | some (a0 :: rest) =>
              max (token_set_sim (" ".intercalate (a0 :: rest)) (" ".intercalate track.artists))
                  ((rest.map (fun a => token_set_sim a (" ".intercalate track.artists))).foldl max
                    (token_set_sim a0 (" ".intercalate track.artists)))
           | _ => (1/5 : Rat)) :=
    mul_nonneg (by norm_num) (artist_component_nonneg artists (" ".intercalate track.artists))
  have h3 : 0 ≤ (5/100 : Rat) * ((track.popularity : Rat) / 100) :=
    mul_nonneg (by norm_num) (div_nonneg (Nat.cast_nonneg _) (by norm_num))
  have h4 : 0 ≤ (if ((normalize_text title).data.take 10).isPrefixOf
      (normalize_text track.name).data then (5/100 : Rat) else 0) := by
    split <;> norm_num
  refine le_min ?_ (by norm_num)
  have := add_nonneg (add_nonneg (add_nonneg h1 h2) h3) h4
  exact this

/-- When the normalized form of `a` has at least one token, the token set
of `a` against itself gives similarity exactly 1. -/
lemma token_set_sim_self_of_tokens (a : String)
    (h : pySplit (normalize_text a) ≠ []) : token_set_sim a a = 1 := by
  unfold token_set_sim
  dsimp only
  have hne : (pySplit (normalize_text a)).toFinset ≠ ∅ := by
    intro hempty
    exact h ((List.toFinset_eq_empty_iff _).mp hempty)
  rw [if_neg (by simp [hne]), Finset.inter_self, Finset.union_self]
  have hcard : ((pySplit (normalize_text a)).toFinset.card : Rat) ≠ 0 := by
    simp only [ne_eq, Nat.cast_eq_zero, Finset.card_eq_zero]
    exact hne
  exact div_self hcard

/-- `bumpBest` never lowers the running best score. -/
lemma bumpBest_ge (b : Option Track × Rat) (p : Track × Rat) :
    b.2 ≤ (bumpBest b p).2 := by
  unfold bumpBest
  split
  · next hgt => exact le_of_lt hgt
  · exact le_refl _

/-- The running best score never decreases along a fold. -/
lemma bestFrom_ge_start (ps : List (Track × Rat)) : ∀ b, b.2 ≤ (bestFrom b ps).2 := by
  induction ps with
  | nil => intro b; exact le_refl _
  | cons p t ih =>
    intro b
    calc b.2 ≤ (bumpBest b p).2 := bumpBest_ge b p
    _ ≤ (bestFrom (bumpBest b p) t).2 := ih (bumpBest b p)
    _ = (bestFrom b (p :: t)).2 := rfl

/-- Every scored candidate in the stream is bounded by the final best
score. -/
lemma bestFrom_ge_mem (ps : List (Track × Rat)) :
    ∀ b, ∀ p ∈ ps, p.2 ≤ (bestFrom b ps).2 := by
  induction ps with
  | nil => intro b p hp; exact absurd hp (List.not_mem_nil p)
  | cons q t ih =>
    intro b p hp
    rcases List.mem_cons.mp hp with h | h
    · subst h
      have h1 : p.2 ≤ (bumpBest b p).2 := by
        unfold bumpBest
        split
        · exact le_refl _
        · next hle => exact le_of_not_lt hle
      exact le_trans h1 (bestFrom_ge_start t (bumpBest b p))
    · exact ih (bumpBest b q) p h

/-- The final best is either the start accumulator or one of the scored
candidates of the stream. -/
lemma bestFrom_cases (ps : List (Track × Rat)) :
    ∀ b, bestFrom b ps = b ∨ ∃ p ∈ ps, bestFrom b ps = (some p.1, p.2) := by
  induction ps with
  | nil => intro b; exact Or.inl rfl
  | cons q t ih =>
    intro b
    have hstep : bestFrom b (q :: t) = bestFrom (bumpBest b q) t := rfl
    rcases ih (bumpBest b q) with h | ⟨p, hp, h⟩
    · by_cases hgt : q.2 > b.2
      · right
        refine ⟨q, List.mem_cons_self q t, ?_⟩
        rw [hstep, h]
        unfold bumpBest
        rw [if_pos hgt]
      · left
        rw [hstep, h]
        unfold bumpBest
        rw [if_neg hgt]
    · right
      exact ⟨p, List.mem_cons_of_mem q hp, by rw [hstep, h]⟩

/-- The source's track loop is the claim's fold over scored candidates. -/
lemma scanTracks_eq_bestFrom (title : String) (artists : Option (List String))
    (ts : List Track) (b : Option Track × Rat) :
    scanTracks title artists ts b =
      bestFrom b (ts.map (fun t => (t, score_track_match title artists t))) := by
  unfold scanTracks bestFrom
  rw [List.foldl_map]
  rfl

/-- Folding over an appended stream is folding twice. -/
lemma bestFrom_append (b : Option Track × Rat) (xs ys : List (Track × Rat)) :
    bestFrom b (xs ++ ys) = bestFrom (bestFrom b xs) ys :=
  List.foldl_append bumpBest b xs ys

/-- An exhausted oracle leaves the accumulator unchanged and never exits. -/
lemma runAttempts_nil (title : String) (artists : Option (List String)) :
    ∀ (n : Nat) (b : Option Track × Rat),
      runAttempts title artists n b [] = (b, [], false) := by
  intro n
  induction n with
  | zero => intro b; rfl
  | succ n ih => intro b; simpa [runAttempts] using ih b

/-- Splitting an attempt budget: running `m + n` attempts is running `m`
and, unless the early exit fired, running `n` more from where it left
off. -/
lemma runAttempts_add (title : String) (artists : Option (List String)) :
    ∀ (m n : Nat) (b : Option Track × Rat) (rs : List SearchResponse),
      runAttempts title artists (m + n) b rs =
        match runAttempts title artists m b rs with
        | (b2, rs2, true) => (b2, rs2, true)
        | (b2, rs2, false) => runAttempts title artists n b2 rs2 := by
  intro m
  induction m with
  | zero =>
    intro n b rs
    simp only [Nat.zero_add, runAttempts]
  | succ m ih =>
    intro n b rs
    rw [Nat.succ_add]
    match rs with
    | [] =>
      simp only [runAttempts]
      rw [ih n b []]
    | none :: rest =>
      simp only [runAttempts]
      rw [ih n b rest]
    | some ts :: rest =>
      simp only [runAttempts]
      by_cases hge : (scanTracks title artists ts b).2 ≥ 3/4
      · simp only [if_pos hge]
      · simp only [if_neg hge]
        rw [ih n (scanTracks title artists ts b) rest]

/-- The nested query/attempt loops are one flat attempt loop whose budget
is `#queries * retries`. -/
lemma runQueries_flat (title : String) (artists : Option (List String)) (retries : Nat) :
    ∀ (qs : List String) (b : Option Track × Rat) (rs : List SearchResponse),
      runQueries title artists retries qs b rs =
        runAttempts title artists (qs.length * retries) b rs := by
  intro qs
  induction qs with
  | nil =>
    intro b rs
    simp only [List.length_nil, Nat.zero_mul]
    rfl
  | cons q qs ih =>
    intro b rs
    have hlen : (q :: qs).length * retries = retries + qs.length * retries := by
      simp only [List.length_cons]
      ring
    rw [hlen, runAttempts_add]
    simp only [runQueries]
    rcases hrun : runAttempts title artists retries b rs with ⟨b2, rs2, ex⟩
    cases ex
    · simp only [ih b2 rs2]
    · rfl

/-- With a full-length budget and a below-threshold accumulator, the
source's attempt loop is exactly the claim's flat loop.  (When the running
best is below `3/4`, checking the threshold only after successful searches
— as the source does — agrees with checking it after every outcome.) -/
lemma runAttempts_eq_claimRunL (title : String) (artists : Option (List String)) :
    ∀ (rs : List SearchResponse) (b : Option Track × Rat), b.2 < 3/4 →
      runAttempts title artists rs.length b rs = claimRunL title artists b rs := by
  intro rs
  induction rs with
  | nil =>
    intro b _
    rfl
  | cons r rest ih =>
    intro b hb
    match r with
    | none =>
      have hstep : bestFrom b ((Option.getD (none : SearchResponse) []).map
          (fun t => (t, score_track_match title artists t))) = b := rfl
      simp only [List.length_cons, runAttempts, claimRunL, hstep, if_neg (not_le.mpr hb)]
      exact ih b hb
    | some ts =>
      simp only [List.length_cons, runAttempts, claimRunL, Option.getD_some,
        ← scanTracks_eq_bestFrom]
      by_cases hge : (scanTracks title artists ts b).2 ≥ 3/4
      · simp only [if_pos hge]
      · simp only [if_neg hge]
        exact ih (scanTracks title artists ts b) (not_le.mp hge)

/-- When the claim-side exit point is `some k`, the flat loop stops right
after the `k`-th outcome with the running best over the first `k`
outcomes. -/
lemma claimRunL_exit_some (title : String) (artists : Option (List String)) :
    ∀ (rs : List SearchResponse) (b : Option Track × Rat) (k : Nat),
      firstExitAux title artists b rs = some k →
      claimRunL title artists b rs =
        (bestFrom b (seenScores title artists (rs.take k)), rs.drop k, true) := by
  intro rs
  induction rs with
  | nil => intro b k h; exact absurd h (by simp [firstExitAux])
  | cons r rest ih =>
    intro b k h
    by_cases hge : (bestFrom b ((r.getD []).map (fun t => (t, score_track_match title artists t)))).2 ≥ 3/4
    · have hk : k = 1 := by
        simp only [firstExitAux, if_pos hge, Option.some.injEq] at h
        omega
      subst hk
      simp only [claimRunL, if_pos hge, List.take_succ_cons, List.take_zero, List.drop_succ_cons,
        List.drop_zero]
      have hseen : seenScores title artists [r] =
          (r.getD []).map (fun t => (t, score_track_match title artists t)) := by
        simp [seenScores]
      rw [hseen]
    · simp only [firstExitAux, if_neg hge, Option.map_eq_some'] at h
      rcases h with ⟨k', hk', rfl⟩
      simp only [claimRunL, if_neg hge]
      rw [ih _ k' hk']
      simp only [List.take_succ_cons, List.drop_succ_cons]
      have : seenScores title artists (r :: rest.take k') =
          (r.getD []).map (fun t => (t, score_track_match title artists t)) ++
            seenScores title artists (rest.take k') := rfl
      rw [this, bestFrom_append]

/-- When the claim-side exit point is absent, the flat loop consumes every
outcome and ends without exiting, carrying the running best over the whole
list. -/
lemma claimRunL_exit_none (title : String) (artists : Option (List String)) :
    ∀ (rs : List SearchResponse) (b : Option Track × Rat),
      firstExitAux title artists b rs = none →
      claimRunL title artists b rs = (bestFrom b (seenScores title artists rs), [], false) := by
  intro rs
  induction rs with
  | nil => intro b _; rfl
  | cons r rest ih =>
    intro b h
    by_cases hge : (bestFrom b ((r.getD []).map (fun t => (t, score_track_match title artists t)))).2 ≥ 3/4
    · simp [firstExitAux, if_pos hge] at h
    · simp only [firstExitAux, if_neg hge, Option.map_eq_none'] at h
      simp only [claimRunL, if_neg hge]
      rw [ih _ h]
      have : seenScores title artists (r :: rest) =
          (r.getD []).map (fun t => (t, score_track_match title artists t)) ++
            seenScores title artists rest := rfl
      rw [this, bestFrom_append]

/-- Minimality facts about the claim-side exit point: a returned `k` is the
first prefix length whose running best reaches the threshold, and when no
exit is reported no prefix ever reaches it. -/
lemma firstExitAux_min (title : String) (artists : Option (List String)) :
    ∀ (rs : List SearchResponse) (b : Option Track × Rat), b.2 < 3/4 →
      (∀ k, firstExitAux title artists b rs = some k →
        1 ≤ k ∧ k ≤ rs.length ∧
        3/4 ≤ (bestFrom b (seenScores title artists (rs.take k))).2 ∧
        ∀ j, j < k → (bestFrom b (seenScores title artists (rs.take j))).2 < 3/4) ∧
      (firstExitAux title artists b rs = none →
        ∀ j, (bestFrom b (seenScores title artists (rs.take j))).2 < 3/4) := by
  intro rs
  induction rs with
  | nil =>
    intro b hb
    constructor
    · intro k h
      exact absurd h (by simp [firstExitAux])
    · intro _ j
      simp only [List.take_nil]
      exact hb
  | cons r rest ih =>
    intro b hb
    have hseen : ∀ l, seenScores title artists (r :: l) =
        (r.getD []).map (fun t => (t, score_track_match title artists t)) ++
          seenScores title artists l := fun _ => rfl
    by_cases hge : (bestFrom b ((r.getD []).map (fun t => (t, score_track_match title artists t)))).2 ≥ 3/4
    · constructor
      · intro k h
        have hk : k = 1 := by
          simp only [firstExitAux, if_pos hge, Option.some.injEq] at h
          omega
        subst hk
        refine ⟨le_refl 1, by simp, ?_, ?_⟩
        · simp only [List.take_succ_cons, List.take_zero, hseen]
          rw [bestFrom_append]
          exact hge
        · intro j hj
          interval_cases j
          simpa using hb
      · intro h
        simp [firstExitAux, if_pos hge] at h
    · have hlt : (bestFrom b ((r.getD []).map (fun t => (t, score_track_match title artists t)))).2 < 3/4 :=
        not_le.mp hge
      constructor
      · intro k h
        simp only [firstExitAux, if_neg hge, Option.map_eq_some'] at h
        rcases h with ⟨k', hk', rfl⟩
        rcases (ih _ hlt).1 k' hk' with ⟨h1, h2, h3, h4⟩
        refine ⟨by omega, by simp only [List.length_cons]; omega, ?_, ?_⟩
        · simp only [List.take_succ_cons, hseen]
          rw [bestFrom_append]
          exact h3
        · intro j hj
          match j with
          | 0 => simpa using hb
          | j' + 1 =>
            simp only [List.take_succ_cons, hseen]
            rw [bestFrom_append]
            exact h4 j' (by omega)
      · intro h j
        simp only [firstExitAux, if_neg hge, Option.map_eq_none'] at h
        match j with
        | 0 => simpa using hb
        | j' + 1 =>
          simp only [List.take_succ_cons, hseen]
          rw [bestFrom_append]
          exact (ih _ hlt).2 h j'

/-- Without an early exit, the attempt loop consumes exactly its budget
(one oracle outcome per attempt, successful or not). -/
lemma runAttempts_false_drop (title : String) (artists : Option (List String)) :
    ∀ (n : Nat) (b : Option Track × Rat) (rs : List SearchResponse)
      (b2 : Option Track × Rat) (rs2 : List SearchResponse),
      runAttempts title artists n b rs = (b2, rs2, false) → rs2 = rs.drop n := by
  intro n
  induction n with
  | zero =>
    intro b rs b2 rs2 h
    simp only [runAttempts, Prod.mk.injEq] at h
    rw [← h.2.1, List.drop_zero]
  | succ n ih =>
    intro b rs b2 rs2 h
    match rs with
    | [] =>
      simp only [runAttempts] at h
      have := ih b [] b2 rs2 h
      simp only [List.drop_nil] at this ⊢
      exact this
    | none :: rest =>
      simp only [runAttempts] at h
      rw [List.drop_succ_cons]
      exact ih b rest b2 rs2 h
    | some ts :: rest =>
      simp only [runAttempts] at h
      rw [List.drop_succ_cons]
      by_cases hge : (scanTracks title artists ts b).2 ≥ 3/4
      · rw [if_pos hge] at h
        have hC := congrArg (fun p : (Option Track × Rat) × List SearchResponse × Bool => p.2.2) h
        simp at hC
      · rw [if_neg hge] at h
        exact ih _ rest b2 rs2 h

/-- Replacing a raised search by an empty result page changes neither the
running best nor whether the early exit fires in the claim-side loop. -/
lemma claimRunL_replace (title : String) (artists : Option (List String)) :
    ∀ (rs1 : List SearchResponse) (b : Option Track × Rat) (rs2 : List SearchResponse),
      (claimRunL title artists b (rs1 ++ none :: rs2)).1 =
        (claimRunL title artists b (rs1 ++ some [] :: rs2)).1 ∧
      (claimRunL title artists b (rs1 ++ none :: rs2)).2.2 =
        (claimRunL title artists b (rs1 ++ some [] :: rs2)).2.2 := by
  intro rs1
  induction rs1 with
  | nil =>
    intro b rs2
    exact ⟨rfl, rfl⟩
  | cons r rs1 ih =>
    intro b rs2
    simp only [List.cons_append, claimRunL]
    by_cases hge : (bestFrom b ((r.getD []).map (fun t => (t, score_track_match title artists t)))).2 ≥ 3/4
    · simp [if_pos hge]
    · simp only [if_neg hge]
      exact ih _ rs2

/-- Under a full-length oracle, the source's whole loop phase equals the
claim-side flat loop. -/
lemma resolve_track_run_eq_claim (title : String) (artists : Option (List String))
    (retries : Nat) (responses : List SearchResponse)
    (h : responses.length =
      (buildQueries (effectiveTitleArtists title artists).1
        (effectiveTitleArtists title artists).2).length * retries) :
    resolve_track_run title artists retries responses =
      claimRunL (effectiveTitleArtists title artists).1
        (effectiveTitleArtists title artists).2 (none, 0) responses := by
  unfold resolve_track_run
  rw [runQueries_flat, ← h]
  exact runAttempts_eq_claimRunL _ _ responses (none, 0) (by norm_num)

/-- Under a full-length oracle, `resolve_track` is the claim-side loop
followed by the source's accept test. -/
lemma resolve_track_eq_claim (title : String) (artists : Option (List String))
    (retries : Nat) (responses : List SearchResponse)
    (h : responses.length =
      (buildQueries (effectiveTitleArtists title artists).1
        (effectiveTitleArtists title artists).2).length * retries) :
    resolve_track title artists retries responses =
      (match claimRunL (effectiveTitleArtists title artists).1
          (effectiveTitleArtists title artists).2 (none, 0) responses with
       | (b, _, true) => b.1
       | (b, _, false) =>
         match b.1 with
         | some t => if b.2 ≥ 9/20 then some t else none
         | none => none) := by
  unfold resolve_track
  rw [resolve_track_run_eq_claim title artists retries responses h]

/-- The async track loop is the sync track loop. -/
lemma asyncScanTracks_eq (title : String) (artists : Option (List String))
    (ts : List Track) (b : Option Track × Rat) :
    asyncScanTracks title artists ts b = scanTracks title artists ts b := rfl

/-- The async attempt loop is the sync attempt loop. -/
lemma asyncRunAttempts_eq (title : String) (artists : Option (List String)) :
    ∀ (n : Nat) (b : Option Track × Rat) (rs : List SearchResponse),
      asyncRunAttempts title artists n b rs = runAttempts title artists n b rs := by
  intro n
  induction n with
  | zero => intro b rs; rfl
  | succ n ih =>
    intro b rs
    match rs with
    | [] =>
      simp only [asyncRunAttempts, runAttempts]
      exact ih b []
    | none :: rest =>
      simp only [asyncRunAttempts, runAttempts]
      exact ih b rest
    | some ts :: rest =>
      simp only [asyncRunAttempts, runAttempts, asyncScanTracks_eq]
      by_cases hge : (scanTracks title artists ts b).2 ≥ 3/4
      · simp only [if_pos hge]
      · simp only [if_neg hge]
        exact ih (scanTracks title artists ts b) rest

/-- The async query loop is the sync query loop. -/
lemma asyncRunQueries_eq (title : String) (artists : Option (List String)) (retries : Nat) :
    ∀ (qs : List String) (b : Option Track × Rat) (rs : List SearchResponse),
      asyncRunQueries title artists retries qs b rs =
        runQueries title artists retries qs b rs := by
  intro qs
  induction qs with
  | nil => intro b rs; rfl
  | cons q qs ih =>
    intro b rs
    simp only [asyncRunQueries, runQueries, asyncRunAttempts_eq]
    rcases runAttempts title artists retries b rs with ⟨b2, rs2, ex⟩
    cases ex
    · exact ih b2 rs2
    · rfl

/-- Evaluation rule for `score_track_match` without artists, given the
title similarity and the prefix-bonus test. -/
lemma score_none_eval (title : String) (track : Track) (ts : Rat) (b : Bool)
    (h : token_set_sim title track.name = ts)
    (hb : ((normalize_text title).data.take 10).isPrefixOf (normalize_text track.name).data = b) :
    score_track_match title none track =
      min (65/100 * ts + 3/10 * (1/5) + 5/100 * ((track.popularity : Rat) / 100)
           + (if b then 5/100 else 0)) 1 := by
  rw [score_formula, h, hb]

/-- Score of the counterexample track `"x a"` against title `"a"`. -/
lemma score_X : score_track_match "a" none ⟨"x a", [], 0⟩ = 77/200 := by
  rw [score_none_eval "a" ⟨"x a", [], 0⟩ (1/2) false
    (by rw [token_set_sim_pos_eval "a" "x a" 1 2 (by decide) (by decide) (by decide)]; norm_num)
    (by decide)]
  norm_num [min_def]

/-- Score of the counterexample track `"a y"` against title `"a"`. -/
lemma score_Y : score_track_match "a" none ⟨"a y", [], 40⟩ = 91/200 := by
  rw [score_none_eval "a" ⟨"a y", [], 40⟩ (1/2) true
    (by rw [token_set_sim_pos_eval "a" "a y" 1 2 (by decide) (by decide) (by decide)]; norm_num)
    (by decide)]
  norm_num [min_def]

/-- Score of the exact-match track `"a"` against title `"a"`. -/
lemma score_Z : score_track_match "a" none ⟨"a", [], 100⟩ = 81/100 := by
  rw [score_none_eval "a" ⟨"a", [], 100⟩ 1 true
    (by rw [token_set_sim_pos_eval "a" "a" 1 1 (by decide) (by decide) (by decide)]; norm_num)
    (by decide)]
  norm_num [min_def]

/-- A batch of all-valid verifications drops nothing. -/
lemma buildFinalList_all_valid {α : Type} :
    ∀ (ps : List α) (vs : List VerificationResult),
      (∀ v ∈ vs, v.is_valid = true) → buildFinalList ps vs = ps := by
  intro ps
  induction ps with
  | nil => intro vs _; cases vs <;> rfl
  | cons p ps ih =>
    intro vs hv
    match vs with
    | [] =>
      simp only [buildFinalList]
      rw [ih [] (by intro v hv'; exact absurd hv' (List.not_mem_nil v))]
    | v :: vs' =>
      simp only [buildFinalList, hv v (List.mem_cons_self v vs'), if_pos]
      rw [ih vs' (fun w hw => hv w (List.mem_cons_of_mem v hw))]

/-- A pair whose verification slot is either missing or valid is kept in
the final list. -/
lemma buildFinalList_keep {α : Type} :
    ∀ (ps : List α) (vs : List VerificationResult) (i : Nat) (p : α),
      ps[i]? = some p →
      (∀ v, vs[i]? = some v → v.is_valid = true) →
      p ∈ buildFinalList ps vs := by
  intro ps
  induction ps with
  | nil =>
    intro vs i p hp _
    simp at hp
  | cons p0 ps ih =>
    intro vs i p hp hv
    match i with
    | 0 =>
      simp only [List.getElem?_cons_zero, Option.some.injEq] at hp
      subst hp
      match vs with
      | [] => exact List.mem_cons_self _ _
      | v :: vs' =>
        have hval := hv v (by simp)
        simp only [buildFinalList, hval, if_pos]
        exact List.mem_cons_self _ _
    | i' + 1 =>
      simp only [List.getElem?_cons_succ] at hp
      match vs with
      | [] =>
        simp only [buildFinalList]
        exact List.mem_cons_of_mem p0 (ih [] i' p hp (by intro v hv'; simp at hv'))
      | v :: vs' =>
        have hrec := ih vs' i' p hp (by
          intro w hw
          exact hv w (by simpa using hw))
        simp only [buildFinalList]
        split
        · exact List.mem_cons_of_mem p0 hrec
        · exact hrec

/-! ## Claims -/

/-- C2: For every title, optional artist list, and candidate track, the
match score equals `0.65 * titleScore + 0.30 * artistScore
+ 0.05 * popularity/100`, where the artist score is the maximum of the
joined-vs-joined similarity and the best single-artist similarity when
artists are given, and the fixed prior `0.2` otherwise; a `0.05` bonus is
added when the normalized candidate title starts with the first 10
characters of the normalized target title, and the result is clamped to
at most `1.0`. -/
theorem score_track_match_formula_C2 (title : String) (artists : Option (List String))
    (track : Track) :
    score_track_match title artists track =
      min (65/100 * token_set_sim title track.name
           + 3/10 * (match artists with
                     | some (a0 :: rest) =>
                        max (token_set_sim (" ".intercalate (a0 :: rest)) (" ".intercalate track.artists))
                            ((rest.map (fun a => token_set_sim a (" ".intercalate track.artists))).foldl max
                              (token_set_sim a0 (" ".intercalate track.artists)))
                     | _ => 1/5)
           + 5/100 * ((track.popularity : Rat) / 100)
           + (if ((normalize_text title).data.take 10).isPrefixOf (normalize_text track.name).data
              then 5/100 else 0)) 1 :=
  score_formula title artists track

/-- C7: For any title, any artist list (including absent or empty), and
any candidate track (including popularity 0), the match score lies in
`[0, 1]`. -/
theorem score_bounds_C7 (title : String) (artists : Option (List String)) (track : Track) :
    0 ≤ score_track_match title artists track ∧ score_track_match title artists track ≤ 1 := by
  constructor
  · exact score_track_match_nonneg title artists track
  · rw [score_formula]
    exact min_le_right _ 1

/-- C8 counterexample: `"!"` is a non-empty string whose token-set
self-similarity is not 1 — normalization strips the `!`, leaving an empty
token set, so the similarity is 0. -/
theorem token_set_sim_self_counterexample_C8 :
    ("!" : String) ≠ "" ∧ token_set_sim "!" "!" ≠ 1 := by
  constructor
  · decide
  · have h : token_set_sim "!" "!" = 0 := by
      unfold token_set_sim
      dsimp only
      rw [if_pos (by left; decide)]
    rw [h]
    norm_num

/-- C8 (amended): for every string whose NORMALIZED form has at least one
token, the token-set similarity with itself equals 1.  (Non-emptiness of
the raw string is not enough: normalization may strip it to nothing.) -/
theorem token_set_sim_self_C8 (a : String) (h : pySplit (normalize_text a) ≠ []) :
    token_set_sim a a = 1 :=
  token_set_sim_self_of_tokens a h

/-- C8 witness: `"Hello"` normalizes to one token, and its self-similarity
is 1. -/
theorem token_set_sim_self_C8_witness :
    pySplit (normalize_text "Hello") ≠ [] ∧ token_set_sim "Hello" "Hello" = 1 :=
  ⟨by decide, token_set_sim_self_C8 "Hello" (by decide)⟩

/-- C9: the artist-delimiter split is not anchored to word boundaries, so
an artist name containing the letter pair `ft` is split mid-word:
`parse("Song by Taylor Swift")` yields the artist list `["Taylor Swi"]`,
not `["Taylor Swift"]`. -/
theorem parser_midword_split_C9 :
    parse_title_and_artists_from_freeform "Song by Taylor Swift" = ("Song", some ["Taylor Swi"]) ∧
    parse_title_and_artists_from_freeform "Song by Taylor Swift" ≠ ("Song", some ["Taylor Swift"]) := by
  constructor
  · decide
  · decide

/-- C10: the synchronous resolver (main.py) and the asynchronous resolver
(spotify_async.py) implement the same algorithm: on every title, artist
list, retry bound and identical oracle of catalog responses (including
identical failures) they return the same result. -/
theorem resolvers_equivalent_C10 (title : String) (artists : Option (List String))
    (retries : Nat) (responses : List SearchResponse) :
    async_resolve_track title artists retries responses =
      resolve_track title artists retries responses := by
  have hfun : asyncRunQueries = runQueries := by
    funext t a r qs b rs
    exact asyncRunQueries_eq t a r qs b rs
  unfold async_resolve_track
  rw [hfun]
  rfl

/-- C4 counterexample: on `"A by B by C"` the source parser takes only the
fragment between the first and second `" by "` matches as the artist
portion (yielding `["B"]`), while the claim's reading — split the ENTIRE
remainder after the first separator — would yield `["B by C"]`. -/
theorem parse_remainder_counterexample_C4 :
    parse_title_and_artists_from_freeform "A by B by C" = ("A", some ["B"]) ∧
    parse_spec_C4 "A by B by C" = ("A", some ["B by C"]) ∧
    parse_title_and_artists_from_freeform "A by B by C" ≠ parse_spec_C4 "A by B by C" :=
  ⟨by decide, by decide, by decide⟩

/-- C4 (amended): `parse` splits on the first title-separator match (the
part before it, trimmed, is the title; no match means the whole string is
the title with artists absent); when a separator matched, the portion
between the first match and the NEXT separator match (or the end of the
string) is split on the artist delimiters into trimmed non-empty names,
with zero names treated as absent — so the artist option is never
`some []` — and `parse` is a total function (it never raises). -/
theorem parse_freeform_amended_C4 (text : String) :
    parse_title_and_artists_from_freeform text = parse_spec_C4_amended text ∧
    (parse_title_and_artists_from_freeform text).2 ≠ some [] := by
  constructor
  · rfl
  · unfold parse_title_and_artists_from_freeform
    rcases h : findSep text.data with _ | ⟨i, len⟩
    · simp [h]
    · simp only [h]
      split
      · simp
      · next hf => simp only [ne_eq, Option.some.injEq]; exact hf

/-- C5 counterexample: the single-pair verifier's error default is NOT
permissive — on a raised model error it returns `is_valid = false`, and
the orchestrator then drops that pair from the final list. -/
theorem verifier_default_counterexample_C5 :
    (verify_recommendation (.failure "boom")).is_valid = false ∧
    buildFinalList [(0 : Nat)] [verify_recommendation (.failure "boom")] = [] := by
  constructor
  · rfl
  · rfl

/-- C5 (amended): the verifier never propagates an error to its caller —
every outcome of the model interaction maps to a returned result — but the
defaults differ: the single-pair verify returns the conservative
`{is_valid: false, confidence: 0}` on error or empty response, which
causes the pair to be dropped, while the batch variant returns the
permissive `{is_valid: true, confidence: 0.5}` per pair, which keeps every
pair. -/
theorem verifier_error_defaults_C5 (e : String) (n : Nat) (x : Nat) (ps : List Nat) :
    verify_recommendation (.failure e) = ⟨false, 0, "Verification error: " ++ e⟩ ∧
    verify_recommendation .empty = ⟨false, 0, "Verification failed"⟩ ∧
    buildFinalList [x] [verify_recommendation (.failure e)] = [] ∧
    buildFinalList [x] [verify_recommendation .empty] = [] ∧
    verify_batch (.failure e) n = List.replicate n ⟨true, 1/2, "Verification error: " ++ e⟩ ∧
    verify_batch .empty n = List.replicate n ⟨true, 1/2, "Verification skipped"⟩ ∧
    buildFinalList ps (verify_batch (.failure e) n) = ps ∧
    buildFinalList ps (verify_batch .empty n) = ps := by
  refine ⟨rfl, rfl, rfl, rfl, rfl, rfl, ?_, ?_⟩
  · exact buildFinalList_all_valid ps _ (by
      intro v hv
      rcases List.eq_of_mem_replicate hv with rfl
      rfl)
  · exact buildFinalList_all_valid ps _ (by
      intro v hv
      rcases List.eq_of_mem_replicate hv with rfl
      rfl)

/-- C6: the batched extraction always returns exactly `n` results aligned
by index; every slot beyond the decoded array's length is filled with the
default `{is_valid: true, confidence_score: 0.5, reason: "Missing
result"}`, and a pair whose slot got that default is kept (not dropped) in
the orchestrator's final list. -/
theorem batch_padding_C6 (vs : List RawVerification) (n : Nat) :
    (extract_batch_verification vs n).length = n ∧
    (∀ i, vs.length ≤ i → i < n →
      (extract_batch_verification vs n)[i]? = some ⟨true, 1/2, "Missing result"⟩) ∧
    (∀ (ps : List Nat) (i : Nat) (p : Nat), ps.length = n → ps[i]? = some p →
      vs.length ≤ i → p ∈ buildFinalList ps (extract_batch_verification vs n)) := by
  refine ⟨?_, ?_, ?_⟩
  · simp [extract_batch_verification]
  · intro i hvs hn
    have hrange : (List.range n)[i]? = some i := by
      simp [List.getElem?_range, hn]
    simp only [extract_batch_verification, List.getElem?_map, hrange, Option.map_some']
    have hnone : vs[i]? = none := by
      rw [List.getElem?_eq_none_iff]
      exact hvs
    rw [hnone]
  · intro ps i p hlen hp hvs
    refine buildFinalList_keep ps (extract_batch_verification vs n) i p hp ?_
    intro v hv
    have hin : i < n := by
      have := List.getElem?_eq_some_iff.mp hp
      rcases this with ⟨hi, _⟩
      omega
    have hrange : (List.range n)[i]? = some i := by
      simp [List.getElem?_range, hin]
    have hnone : vs[i]? = none := by
      rw [List.getElem?_eq_none_iff]
      exact hvs
    simp only [extract_batch_verification, List.getElem?_map, hrange, Option.map_some',
      hnone, Option.some.injEq] at hv
    rw [← hv]

/-- C1: with one oracle outcome available per possible search call
(`#queries * retries`), the resolver returns the running best candidate as
soon as the running best score first reaches the early-exit threshold
`0.75` right after some search outcome, leaving every later outcome
unconsumed; otherwise it exhausts all outcomes and returns the
highest-scoring candidate seen iff that score is at least the accept
threshold `0.45`, and `none` when no candidate reaches it. -/
theorem resolve_track_threshold_policy_C1 (title : String) (artists : Option (List String))
    (retries : Nat) (responses : List SearchResponse)
    (h : responses.length =
      (buildQueries (effectiveTitleArtists title artists).1
        (effectiveTitleArtists title artists).2).length * retries) :
    (∀ k, firstExit (effectiveTitleArtists title artists).1
        (effectiveTitleArtists title artists).2 responses = some k →
      resolve_track title artists retries responses =
        (bestOf (effectiveTitleArtists title artists).1
          (effectiveTitleArtists title artists).2 (responses.take k)).1 ∧
      (resolve_track_run title artists retries responses).2.1 = responses.drop k ∧
      3/4 ≤ (bestOf (effectiveTitleArtists title artists).1
        (effectiveTitleArtists title artists).2 (responses.take k)).2 ∧
      (∀ j, j < k → (bestOf (effectiveTitleArtists title artists).1
        (effectiveTitleArtists title artists).2 (responses.take j)).2 < 3/4) ∧
      (∀ p ∈ seenScores (effectiveTitleArtists title artists).1
          (effectiveTitleArtists title artists).2 (responses.take k),
        p.2 ≤ (bestOf (effectiveTitleArtists title artists).1
          (effectiveTitleArtists title artists).2 (responses.take k)).2) ∧
      (∃ p ∈ seenScores (effectiveTitleArtists title artists).1
          (effectiveTitleArtists title artists).2 (responses.take k),
        bestOf (effectiveTitleArtists title artists).1
          (effectiveTitleArtists title artists).2 (responses.take k) = (some p.1, p.2))) ∧
    (firstExit (effectiveTitleArtists title artists).1
        (effectiveTitleArtists title artists).2 responses = none →
      resolve_track title artists retries responses =
        (if 9/20 ≤ (bestOf (effectiveTitleArtists title artists).1
            (effectiveTitleArtists title artists).2 responses).2
         then (bestOf (effectiveTitleArtists title artists).1
            (effectiveTitleArtists title artists).2 responses).1
         else none) ∧
      (resolve_track_run title artists retries responses).2.1 = [] ∧
      (∀ p ∈ seenScores (effectiveTitleArtists title artists).1
          (effectiveTitleArtists title artists).2 responses,
        p.2 ≤ (bestOf (effectiveTitleArtists title artists).1
          (effectiveTitleArtists title artists).2 responses).2) ∧
      (∀ t, (bestOf (effectiveTitleArtists title artists).1
          (effectiveTitleArtists title artists).2 responses).1 = some t →
        (t, (bestOf (effectiveTitleArtists title artists).1
          (effectiveTitleArtists title artists).2 responses).2) ∈
          seenScores (effectiveTitleArtists title artists).1
            (effectiveTitleArtists title artists).2 responses)) := by
  have hb0 : ((none, 0) : Option Track × Rat).2 < 3/4 := by norm_num
  have hrun := resolve_track_run_eq_claim title artists retries responses h
  have hres := resolve_track_eq_claim title artists retries responses h
  simp only [bestOf, firstExit]
  constructor
  · intro k hk
    have hcl := claimRunL_exit_some (effectiveTitleArtists title artists).1
      (effectiveTitleArtists title artists).2 responses (none, 0) k hk
    have hmin := (firstExitAux_min (effectiveTitleArtists title artists).1
      (effectiveTitleArtists title artists).2 responses (none, 0) hb0).1 k hk
    refine ⟨?_, ?_, hmin.2.2.1, hmin.2.2.2, ?_, ?_⟩
    · rw [hres, hcl]
    · rw [hrun, hcl]
    · intro p hp
      exact bestFrom_ge_mem _ (none, 0) p hp
    · rcases bestFrom_cases (seenScores (effectiveTitleArtists title artists).1
          (effectiveTitleArtists title artists).2 (responses.take k)) (none, 0) with hc | ⟨p, hp, hc⟩
      · exfalso
        have := hmin.2.2.1
        rw [hc] at this
        norm_num at this
      · exact ⟨p, hp, hc⟩
  · intro hk
    have hcl := claimRunL_exit_none (effectiveTitleArtists title artists).1
      (effectiveTitleArtists title artists).2 responses (none, 0) hk
    refine ⟨?_, ?_, ?_, ?_⟩
    · rw [hres, hcl]
      rcases hbo : (bestFrom (none, 0) (seenScores (effectiveTitleArtists title artists).1
          (effectiveTitleArtists title artists).2 responses)).1 with _ | t
      · simp [hbo]
      · simp [hbo]
    · rw [hrun, hcl]
    · intro p hp
      exact bestFrom_ge_mem _ (none, 0) p hp
    · intro t ht
      rcases bestFrom_cases (seenScores (effectiveTitleArtists title artists).1
          (effectiveTitleArtists title artists).2 responses) (none, 0) with hc | ⟨p, hp, hc⟩
      · rw [hc] at ht
        simp at ht
      · rw [hc] at ht
        simp only [Option.some.injEq] at ht
        rw [hc, ← ht]
        exact hp

/-- C1 witness: with title `"a"`, no artists, one retry and a two-query
oracle whose first page holds the exact-match track (score `0.81 ≥ 0.75`),
the resolver early-exits with that track. -/
theorem resolve_track_threshold_policy_C1_witness :
    ([some [Track.mk "a" [] 100], none] : List SearchResponse).length =
      (buildQueries (effectiveTitleArtists "a" none).1
        (effectiveTitleArtists "a" none).2).length * 1 ∧
    resolve_track "a" none 1 [some [⟨"a", [], 100⟩], none] = some ⟨"a", [], 100⟩ := by
  have hlen : ([some [Track.mk "a" [] 100], none] : List SearchResponse).length =
      (buildQueries (effectiveTitleArtists "a" none).1
        (effectiveTitleArtists "a" none).2).length * 1 := by decide
  refine ⟨hlen, ?_⟩
  have thm := resolve_track_threshold_policy_C1 "a" none 1 [some [⟨"a", [], 100⟩], none] hlen
  have heff1 : (effectiveTitleArtists "a" none).1 = "a" := by decide
  have heff2 : (effectiveTitleArtists "a" none).2 = none := by decide
  have hfe : firstExit (effectiveTitleArtists "a" none).1 (effectiveTitleArtists "a" none).2
      [some [⟨"a", [], 100⟩], none] = some 1 := by
    rw [heff1, heff2]
    norm_num [firstExit, firstExitAux, bestFrom, bumpBest, seenScores, List.foldl, List.map,
      Option.getD, score_Z]
  have hmain := (thm.1 1 hfe).1
  have hbest : (bestOf (effectiveTitleArtists "a" none).1 (effectiveTitleArtists "a" none).2
      (([some [⟨"a", [], 100⟩], none] : List SearchResponse).take 1)).1 = some ⟨"a", [], 100⟩ := by
    rw [heff1, heff2]
    norm_num [bestOf, bestFrom, seenScores, bumpBest, List.foldl, List.map, Option.getD,
      List.take, score_Z]
  rw [hmain, hbest]

/-- C3 counterexample: the source has no `break` after a successful
attempt, so it reissues the same query for all `retries` attempts.  On a
four-outcome oracle the source consumes two pages for the first query and
early-exits on the third page (returning the `"a"` track), whereas a
resolver that advanced to the next query after one success — as the claim
states — would consume one page per query and return the `"a y"` track. -/
theorem resolve_track_retry_counterexample_C3 :
    resolve_track "a" none 2
        [some [⟨"x a", [], 0⟩], some [⟨"a y", [], 40⟩], some [⟨"a", [], 100⟩], none] =
      some ⟨"a", [], 100⟩ ∧
    resolve_track_claimC3 "a" none 2
        [some [⟨"x a", [], 0⟩], some [⟨"a y", [], 40⟩], some [⟨"a", [], 100⟩], none] =
      some ⟨"a y", [], 40⟩ ∧
    resolve_track "a" none 2
        [some [⟨"x a", [], 0⟩], some [⟨"a y", [], 40⟩], some [⟨"a", [], 100⟩], none] ≠
      resolve_track_claimC3 "a" none 2
        [some [⟨"x a", [], 0⟩], some [⟨"a y", [], 40⟩], some [⟨"a", [], 100⟩], none] := by
  have heff : effectiveTitleArtists "a" none = ("a", none) := by decide
  have hq : buildQueries "a" none = ["track:\"a\"", "a"] := by decide
  have h1 : resolve_track "a" none 2
      [some [⟨"x a", [], 0⟩], some [⟨"a y", [], 40⟩], some [⟨"a", [], 100⟩], none] =
      some ⟨"a", [], 100⟩ := by
    norm_num [resolve_track, resolve_track_run, heff, hq, runQueries, runAttempts, scanTracks,
      List.foldl, score_X, score_Y, score_Z]
  have h2 : resolve_track_claimC3 "a" none 2
      [some [⟨"x a", [], 0⟩], some [⟨"a y", [], 40⟩], some [⟨"a", [], 100⟩], none] =
      some ⟨"a y", [], 40⟩ := by
    norm_num [resolve_track_claimC3, heff, hq, runQueriesC3, runAttemptsC3, scanTracks,
      List.foldl, score_X, score_Y, score_Z]
  refine ⟨h1, h2, ?_⟩
  rw [h1, h2]
  decide

/-- C3 (amended): each query in the resolver's list is attempted exactly
`retries` times — one catalog call per attempt, with no cut-off after a
successful attempt — unless the early exit stops the whole loop, so
absent an early exit exactly `#queries * retries` oracle outcomes are
consumed; and a raised search is treated exactly like an empty result
page: with a full-length oracle, replacing any raised outcome by an empty
page does not change the resolve result (errors are never fatal). -/
theorem resolve_track_retry_policy_C3 (title : String) (artists : Option (List String))
    (retries : Nat) (responses : List SearchResponse) :
    ((resolve_track_run title artists retries responses).2.2 = false →
      (resolve_track_run title artists retries responses).2.1 =
        responses.drop ((buildQueries (effectiveTitleArtists title artists).1
          (effectiveTitleArtists title artists).2).length * retries)) ∧
    (∀ rs1 rs2, (rs1 ++ none :: rs2).length =
        (buildQueries (effectiveTitleArtists title artists).1
          (effectiveTitleArtists title artists).2).length * retries →
      resolve_track title artists retries (rs1 ++ none :: rs2) =
        resolve_track title artists retries (rs1 ++ some [] :: rs2)) := by
  have hflat : ∀ rs : List SearchResponse,
      resolve_track_run title artists retries rs =
        runAttempts (effectiveTitleArtists title artists).1
          (effectiveTitleArtists title artists).2
          ((buildQueries (effectiveTitleArtists title artists).1
            (effectiveTitleArtists title artists).2).length * retries)
          (none, 0) rs := by
    intro rs
    show runQueries (effectiveTitleArtists title artists).1
        (effectiveTitleArtists title artists).2 retries
        (buildQueries (effectiveTitleArtists title artists).1
          (effectiveTitleArtists title artists).2) (none, 0) rs = _
    rw [runQueries_flat]
  constructor
  · intro hfalse
    rw [hflat responses] at hfalse ⊢
    rcases hra : runAttempts (effectiveTitleArtists title artists).1
        (effectiveTitleArtists title artists).2
        ((buildQueries (effectiveTitleArtists title artists).1
          (effectiveTitleArtists title artists).2).length * retries)
        (none, 0) responses with ⟨b2, rs2, ex⟩
    rw [hra] at hfalse
    simp only at hfalse
    subst hfalse
    exact runAttempts_false_drop _ _ _ _ _ _ _ hra
  · intro rs1 rs2 hlen
    have hlen2 : (rs1 ++ some [] :: rs2).length =
        (buildQueries (effectiveTitleArtists title artists).1
          (effectiveTitleArtists title artists).2).length * retries := by
      simp only [List.length_append, List.length_cons] at hlen ⊢
      exact hlen
    rw [resolve_track_eq_claim title artists retries _ hlen,
      resolve_track_eq_claim title artists retries _ hlen2]
    obtain ⟨hfst, hflag⟩ := claimRunL_replace (effectiveTitleArtists title artists).1
      (effectiveTitleArtists title artists).2 rs1 (none, 0) rs2
    rcases hA : claimRunL (effectiveTitleArtists title artists).1
        (effectiveTitleArtists title artists).2 (none, 0) (rs1 ++ none :: rs2) with ⟨bA, restA, exA⟩
    rcases hB : claimRunL (effectiveTitleArtists title artists).1
        (effectiveTitleArtists title artists).2 (none, 0) (rs1 ++ some [] :: rs2) with ⟨bB, restB, exB⟩
    rw [hA, hB] at hfst hflag
    simp only at hfst hflag
    subst hfst
    subst hflag
    cases exA <;> rfl

end SpotifyRec
